import Mathlib

/-!
A verification development for the segment-metric transform implemented in
`src/app1.py` (`parse_series`, `compute_et_segments`, `format_segments`).

Numbers: Python floats are modelled by the type `F`: finite values are
idealised as exact rationals, and the IEEE special values `inf`, `-inf`
and `nan` are explicit constructors.  Arithmetic on finite values is exact
(binary64 rounding is not modelled; none of the properties under study
depends on rounding).  Special values propagate as CPython propagates
them, and float division by a value comparing equal to `0.0` — which
raises `ZeroDivisionError` in Python — is modelled by `Option.none`.
-/

/-- Model of a Python float: an exact rational, `inf`, `-inf` or `nan`. -/
inductive F where
  | finite : ℚ → F
  | inf : F
  | neginf : F
  | nan : F
deriving DecidableEq

/-- The float `0.0`. -/
def f0 : F := F.finite 0

/-- The float `1.0`. -/
def f1 : F := F.finite 1

/-- The float `100.0`. -/
def f100 : F := F.finite 100

/-- Whether a float value is finite (neither an infinity nor `nan`). -/
def isFinite : F → Bool
  | F.finite _ => true
  | _ => false

/-- IEEE `==` as used by Python's `a == 0` guard: `nan` compares unequal
to everything, infinities compare equal to themselves, finite values
compare by exact rational equality. -/
def fbeq : F → F → Bool
  | F.finite a, F.finite b => decide (a = b)
  | F.inf, F.inf => true
  | F.neginf, F.neginf => true
  | _, _ => false

/-- IEEE `<`: any comparison involving `nan` is false. -/
def flt : F → F → Bool
  | F.finite a, F.finite b => decide (a < b)
  | F.finite _, F.inf => true
  | F.neginf, F.finite _ => true
  | F.neginf, F.inf => true
  | _, _ => false

/-- IEEE `<=`: `x <= y` iff `x == y` or `x < y`; false on `nan`. -/
def fle (x y : F) : Bool := fbeq x y || flt x y

/-- IEEE `>`. -/
def fgt (x y : F) : Bool := flt y x

/-- Absolute value of a float; `|nan| = nan`. -/
def fabs : F → F
  | F.finite a => F.finite |a|
  | F.inf => F.inf
  | F.neginf => F.inf
  | F.nan => F.nan

/-- Float subtraction with IEEE special-value propagation
(`inf - inf = nan`, `nan` absorbs). -/
def fsub : F → F → F
  | F.finite a, F.finite b => F.finite (a - b)
  | F.finite _, F.inf => F.neginf
  | F.finite _, F.neginf => F.inf
  | F.inf, F.finite _ => F.inf
  | F.neginf, F.finite _ => F.neginf
  | F.inf, F.neginf => F.inf
  | F.neginf, F.inf => F.neginf
  | _, _ => F.nan

/-- Float multiplication with IEEE special-value propagation
(`0 * inf = nan`, `nan` absorbs). -/
def fmul : F → F → F
  | F.finite a, F.finite b => F.finite (a * b)
  | F.finite a, F.inf => if 0 < a then F.inf else if a < 0 then F.neginf else F.nan
  | F.inf, F.finite a => if 0 < a then F.inf else if a < 0 then F.neginf else F.nan
  | F.finite a, F.neginf => if 0 < a then F.neginf else if a < 0 then F.inf else F.nan
  | F.neginf, F.finite a => if 0 < a then F.neginf else if a < 0 then F.inf else F.nan
  | F.inf, F.inf => F.inf
  | F.inf, F.neginf => F.neginf
  | F.neginf, F.inf => F.neginf
  | F.neginf, F.neginf => F.inf
  | _, _ => F.nan

/-- Float division.  In CPython, `x / y` for floats raises
`ZeroDivisionError` whenever `y` compares equal to `0.0`, for every `x`
(including `nan` and the infinities); that exceptional outcome is
modelled by `none`.  Otherwise IEEE special-value propagation applies
(`inf / inf = nan`, finite `/ inf = 0`, `nan` absorbs). -/
def fdiv : F → F → Option F
  | x, F.finite b =>
    if b = 0 then none
    else
      match x with
      | F.finite a => some (F.finite (a / b))
      | F.inf => some (if 0 < b then F.inf else F.neginf)
      | F.neginf => some (if 0 < b then F.neginf else F.inf)
      | F.nan => some F.nan
  | F.finite _, F.inf => some f0
  | F.finite _, F.neginf => some f0
  | F.inf, F.inf => some F.nan
  | F.inf, F.neginf => some F.nan
  | F.neginf, F.inf => some F.nan
  | F.neginf, F.neginf => some F.nan
  | F.nan, _ => some F.nan
  | _, F.nan => some F.nan

/-- The ASCII whitespace characters matched both by Python's `str.strip`
and by `\s` in the splitting regex `[,\s;]+` of `parse_series`
(space, tab, newline, carriage return, vertical tab, form feed). -/
def pyWS (c : Char) : Bool :=
  c == ' ' || c == '\t' || c == '\n' || c == '\r' ||
    c == Char.ofNat 11 || c == Char.ofNat 12

/-- A separator character of the regex `[,\s;]+` in `parse_series`. -/
def sepChar (c : Char) : Bool := c == ',' || c == ';' || pyWS c

/-- `str.strip()`: removes leading and trailing whitespace. -/
def pyStrip (l : List Char) : List Char :=
  ((l.dropWhile (fun c => pyWS c)).reverse.dropWhile (fun c => pyWS c)).reverse

/-- Splitting at every single separator character.  `re.split` with the
pattern `[,\s;]+` splits at maximal separator runs instead; the two only
differ by extra empty tokens, and `parse_series` discards empty tokens
(`if not t: continue`), so they are observationally identical there. -/
def splitSep : List Char → List (List Char)
  | [] => [[]]
  | c :: cs =>
    if sepChar c = true then [] :: splitSep cs
    else
      match splitSep cs with
      | [] => [[c]]
      | t :: ts => (c :: t) :: ts

/-- ASCII lower-casing, for the case-insensitive `inf`/`nan` forms. -/
def lowerChar (c : Char) : Char :=
  if 'A' ≤ c ∧ c ≤ 'Z' then Char.ofNat (c.toNat + 32) else c

/-- Numeric value of an ASCII digit. -/
def digitVal (c : Char) : Nat := c.toNat - 48

/-- Consumes a Python `digitpart`: a digit run in which single
underscores may occur between digits (`1_000`), as accepted by
CPython's `float`.  Returns the accumulated value, the number of digits
consumed and the remaining input. -/
def digitsGo : Nat → Nat → List Char → Nat × Nat × List Char
  | v, n, [] => (v, n, [])
  | v, n, c :: cs =>
    if c.isDigit then digitsGo (10 * v + digitVal c) (n + 1) cs
    else if c = '_' then
      match cs with
      | [] => (v, n, c :: cs)
      | d :: _ =>
        if d.isDigit then digitsGo v n cs
        else (v, n, c :: cs)
    else (v, n, c :: cs)

/-- An optional leading sign; returns whether the value is negated and
the remaining input. -/
def parseSign : List Char → Bool × List Char
  | '+' :: cs => (false, cs)
  | '-' :: cs => (true, cs)
  | cs => (false, cs)

/-- The rational denoted by integer part `ip` and fraction digits `fp`
(which are `fn` digits long). -/
def mkQ (ip fp fn : Nat) : ℚ := (ip : ℚ) + (fp : ℚ) / ((10 : ℚ) ^ fn)

/-- Consumes an optional exponent part `[eE][+-]?digitpart` which must
end the token, scaling the value accordingly. -/
def parseExpTail (q : ℚ) : List Char → Option ℚ
  | [] => some q
  | c :: r =>
    if c = 'e' ∨ c = 'E' then
      let p := parseSign r
      match p.2 with
      | [] => none
      | d :: _ =>
        if d.isDigit then
          let g := digitsGo 0 0 p.2
          if g.2.2.isEmpty then
            some (q * (10 : ℚ) ^ (if p.1 then -(g.1 : ℤ) else (g.1 : ℤ)))
          else none
        else none
    else none

/-- The unsigned decimal float literals accepted by CPython's `float`:
`digitpart [. [digitpart]] [exp]` or `. digitpart [exp]`. -/
def parseDec : List Char → Option ℚ
  | [] => none
  | c :: rest =>
    if c.isDigit then
      let g := digitsGo 0 0 (c :: rest)
      match g.2.2 with
      | '.' :: r2 =>
        match r2 with
        | [] => some (mkQ g.1 0 0)
        | d :: _ =>
          if d.isDigit then
            let h := digitsGo 0 0 r2
            parseExpTail (mkQ g.1 h.1 h.2.1) h.2.2
          else parseExpTail (mkQ g.1 0 0) r2
      | r => parseExpTail (mkQ g.1 0 0) r
    else if c = '.' then
      match rest with
      | [] => none
      | d :: _ =>
        if d.isDigit then
          let h := digitsGo 0 0 rest
          parseExpTail (mkQ 0 h.1 h.2.1) h.2.2
        else none
    else none

/-- The characters of the literal `inf`. -/
def sInf : List Char := "inf".toList

/-- The characters of the literal `infinity`. -/
def sInfinity : List Char := "infinity".toList

/-- The characters of the literal `nan`. -/
def sNan : List Char := "nan".toList

/-- Models CPython's `float(token)` on the separator-free tokens
produced by `parse_series`'s splitter: an optional sign followed either
by a case-insensitive `inf`/`infinity`/`nan` or by a decimal literal
(with optional fraction, exponent and underscores between digits).
`none` models the `ValueError` raised on an unparseable token.  Finite
values are exact rationals (binary64 rounding is not modelled); Unicode
digits and surrounding whitespace — impossible inside these tokens —
are not modelled. -/
def pyFloat? (t : List Char) : Option F :=
  let p := parseSign t
  let low := p.2.map lowerChar
  if low = sInf ∨ low = sInfinity then some (if p.1 then F.neginf else F.inf)
  else if low = sNan then some F.nan
  else
    match parseDec p.2 with
    | some q => some (F.finite (if p.1 then -q else q))
    | none => none

/-- One iteration of the token loop of `parse_series`: empty tokens are
skipped (`if not t: continue`), a parseable token is appended
(`vals.append(float(t))`), an unparseable one is silently dropped
(`except ValueError: pass`). -/
def keepTok (vals : List F) (t : List Char) : List F :=
  if t.isEmpty = true then vals
  else
    match pyFloat? t with
    | some v => vals ++ [v]
    | none => vals

/-- `parse_series` of `src/app1.py` over a character list: returns `[]`
when the text is empty or all-whitespace (`if not text or not
text.strip(): return []`), otherwise splits `text.strip()` on
`[,\s;]+` and folds the token loop. -/
def parse_chars (cs : List Char) : List F :=
  if (cs.isEmpty || (pyStrip cs).isEmpty) = true then []
  else (splitSep (pyStrip cs)).foldl keepTok []

/-- `parse_series` of `src/app1.py` (the permissive parser). -/
def parse_series (text : String) : List F :=
  parse_chars text.toList

/-- A token that triggers the strict-mode error: non-empty and not a
valid float literal. -/
def badTok (t : List Char) : Bool := !t.isEmpty && (pyFloat? t).isNone

/-- Token loop of the strict parser: identical splitting and skipping of
empty tokens, but the first unparseable token aborts the whole parse. -/
def strictGo : List (List Char) → List F → Except (List Char) (List F)
  | [], acc => Except.ok acc
  | t :: ts, acc =>
    if t.isEmpty = true then strictGo ts acc
    else
      match pyFloat? t with
      | some v => strictGo ts (acc ++ [v])
      | none => Except.error t

/-- Modelled from the spec: the strict parse mode of `parseSeries` is
not present in `src/app1.py` (which only contains the permissive
variant); per the spec it splits exactly like the permissive parser and
"fails the whole operation with an `InvalidValue` error identifying the
first unparseable token, aborting before producing any partial result".
`Except.error tok` models `InvalidValue(tok)`. -/
def parse_series_strict (text : String) : Except (List Char) (List F) :=
  strictGo (splitSep (pyStrip text.toList)) []

/-- The spec's strict-mode example input. -/
def exText : String := "25, 30, x, 40"

/-- The offending token of the strict-mode example. -/
def xTok : List Char := ['x']

/-- An input text whose single token is the float literal `nan`. -/
def nanText : String := "nan"

/-- An input text parsing to the series `[1.0, inf]`. -/
def infText : String := "1 inf"

/-- The `ETSegment` dataclass of `src/app1.py`. -/
structure ETSegment where
  seg_idx : Nat
  raw_from : F
  raw_to : F
  pct_delta : F
  T : F
  E : F
deriving DecidableEq

/-- One iteration of the loop body of `compute_et_segments` for
`a = raw[i-1]`, `b = raw[i]`: the divide-by-zero guard `if a == 0: pct =
0.0 else: pct = 100.0 * (b - a) / a`, then `T = pct / denom` and
`E = 1.0 - (T * T)`.  A `ZeroDivisionError` propagates as `none`. -/
def mkSeg (denom : F) (i : Nat) (a b : F) : Option ETSegment :=
  Option.bind (if fbeq a f0 = true then some f0 else fdiv (fmul f100 (fsub b a)) a)
    fun pct =>
      Option.bind (fdiv pct denom) fun T =>
        some ⟨i, a, b, pct, T, fsub f1 (fmul T T)⟩

/-- The loop `for i in range(1, len(raw))` of `compute_et_segments`,
carrying the previous element `a` and the 1-based index `i`. -/
def compute_go (denom : F) : F → List F → Nat → Option (List ETSegment)
  | _, [], _ => some []
  | a, b :: rest, i =>
    match mkSeg denom i a b with
    | none => none
    | some s =>
      match compute_go denom b rest (i + 1) with
      | none => none
      | some tail => some (s :: tail)

/-- `compute_et_segments` of `src/app1.py`: returns `[]` for fewer than
two points, otherwise one segment per consecutive pair.  `none` models
an uncaught `ZeroDivisionError` (possible only through the
denominator, as proved below). -/
def compute_et_segments (raw : List F) (denom : F) : Option (List ETSegment) :=
  match raw with
  | [] => some []
  | [_] => some []
  | a :: b :: rest => compute_go denom a (b :: rest) 1

/-- The segment computed from the pair `25 → 30` at denominator `80`. -/
def seg2530 : ETSegment :=
  ⟨1, F.finite 25, F.finite 30, F.finite 20, F.finite (1/4), F.finite (15/16)⟩

/-- The segment computed from the pair `0 → 5` at denominator `80`
(the zero-guard example of the spec). -/
def seg05 : ETSegment := ⟨1, f0, F.finite 5, f0, f0, f1⟩

/-- The segment computed from the pair `nan → 1` at denominator `80`:
every derived field is `nan`. -/
def segNan : ETSegment := ⟨1, F.nan, F.finite 1, F.nan, F.nan, F.nan⟩

/-- The segment computed from the pair `1 → inf` at denominator `80`:
the derived fields are `inf`, `inf` and `-inf`. -/
def segInf : ETSegment := ⟨1, F.finite 1, F.inf, F.inf, F.inf, F.neginf⟩

/-- The newline joining the formatted segment lines. -/
def nl : String := "\n"

/-- Fixed text pieces of the f-string in `format_segments`. -/
def sSeg : String := "Seg "

/-- Fixed text piece `": "` of the segment line. -/
def sColon : String := ": "

/-- Fixed text piece `" → "` of the segment line. -/
def sArrow : String := " → "

/-- Fixed text piece introducing the percent-delta field. -/
def sPctIntro : String := " | %Δ="

/-- Fixed text piece between the percent-delta and T fields. -/
def sPctT : String := "% | T="

/-- Fixed text piece introducing the E field. -/
def sEIntro : String := " | E="

/-- Rendering of `nan` under `%g`-style formatting. -/
def sNanS : String := "nan"

/-- Rendering of `inf` under `%g`-style formatting. -/
def sInfS : String := "inf"

/-- Rendering of `-inf`. -/
def sNegInfS : String := "-inf"

/-- Rendering of `nan` under sign-forcing formatting. -/
def sPlusNan : String := "+nan"

/-- Rendering of `inf` under sign-forcing formatting. -/
def sPlusInf : String := "+inf"

/-- The digit zero as text. -/
def sZeroS : String := "0"

/-- Zero under sign-forcing `%g` formatting. -/
def sPlusZero : String := "+0"

/-- The decimal point. -/
def sDot : String := "."

/-- The minus sign. -/
def sMinus : String := "-"

/-- The plus sign. -/
def sPlus : String := "+"

/-- The exponent marker of scientific notation. -/
def sExpMark : String := "e"

/-- The empty string. -/
def sEmpty : String := ""

/-- The prefix `0.` of small fixed-notation values. -/
def sZeroDot : String := "0."

/-- Round-half-even rounding to an integer, as used by CPython's float
formatting (rounding of the underlying binary64 is idealised to exact
rational rounding; the claims under study do not depend on digits). -/
def rEven (q : ℚ) : ℤ :=
  let f := Int.floor q
  let r := q - (f : ℚ)
  if r < 1/2 then f
  else if 1/2 < r then f + 1
  else if f % 2 = 0 then f else f + 1

/-- Fuel-bounded largest `e` with `10 ^ e ≤ q`, for `1 ≤ q`. -/
def e10pos : ℚ → Nat → ℤ
  | _, 0 => 0
  | q, fuel + 1 => if q < 10 then 0 else 1 + e10pos (q / 10) fuel

/-- Fuel-bounded floor of `log10 q` for `0 < q < 1` (a negative value). -/
def e10negAux : ℚ → Nat → ℤ
  | _, 0 => 0
  | q, fuel + 1 => if 1 ≤ q then 0 else -1 + e10negAux (q * 10) fuel

/-- Floor of `log10 q` for positive `q`, with fuel covering 500 orders
of magnitude (far beyond double range; beyond it the rendering is still
deterministic, which is all the formatting claims need). -/
def e10 (q : ℚ) : ℤ := if 1 ≤ q then e10pos q 500 else e10negAux q 500

/-- The 6 significant digits of a positive rational and its decimal
exponent, handling rounding carry into a seventh digit. -/
def sigDigits6 (q : ℚ) : Nat × ℤ :=
  let e := e10 q
  let m := (rEven (q * (10 : ℚ) ^ ((5 : ℤ) - e))).toNat
  if 1000000 ≤ m then (m / 10, e + 1) else (m, e)

/-- Strips trailing zero digits, as `%g` formatting does. -/
def stripZeros (s : List Char) : List Char :=
  (s.reverse.dropWhile (fun c => c == '0')).reverse

/-- Zero-pads to two digits (the exponent field of `%g`). -/
def pad2 (n : Nat) : String := if n < 10 then sZeroS ++ toString n else toString n

/-- Zero-pads to three digits (the fraction field of `%.3f`). -/
def pad3 (n : Nat) : String :=
  if n < 10 then sZeroS ++ sZeroS ++ toString n
  else if n < 100 then sZeroS ++ toString n
  else toString n

/-- Renders 6 significant digits `m` at decimal exponent `e` in
`%.6g` style: fixed notation for `-4 ≤ e < 6`, scientific notation
otherwise, trailing zeros stripped. -/
def gRender (m : Nat) (e : ℤ) : String :=
  let ds := (toString m).toList
  if 0 ≤ e ∧ e < 6 then
    let k := e.toNat + 1
    let fp := stripZeros (ds.drop k)
    String.mk (ds.take k) ++ (if fp.isEmpty then sEmpty else sDot ++ String.mk fp)
  else if -4 ≤ e ∧ e < 0 then
    let zs := List.replicate ((-e).toNat - 1) '0'
    sZeroDot ++ String.mk zs ++ String.mk (stripZeros ds)
  else
    let fp := stripZeros (ds.drop 1)
    String.mk (ds.take 1) ++ (if fp.isEmpty then sEmpty else sDot ++ String.mk fp) ++
      sExpMark ++ (if e < 0 then sMinus else sPlus) ++ pad2 e.natAbs

/-- The `{:02d}` field of the segment line. -/
def fmt02d (n : Nat) : String := if n < 10 then sZeroS ++ toString n else toString n

/-- The `{:+.3f}` field of the segment line. -/
def fmtF3s : F → String
  | F.nan => sPlusNan
  | F.inf => sPlusInf
  | F.neginf => sNegInfS
  | F.finite q =>
    let m := (rEven (|q| * 1000)).toNat
    (if q < 0 then sMinus else sPlus) ++ toString (m / 1000) ++ sDot ++ pad3 (m % 1000)

/-- The `{:.6g}` fields of the segment line. -/
def fmtG6 : F → String
  | F.nan => sNanS
  | F.inf => sInfS
  | F.neginf => sNegInfS
  | F.finite q =>
    if q = 0 then sZeroS
    else
      (if q < 0 then sMinus else sEmpty) ++
        (let p := sigDigits6 |q|; gRender p.1 p.2)

/-- The `{:+.6g}` field of the segment line. -/
def fmtG6s : F → String
  | F.nan => sPlusNan
  | F.inf => sPlusInf
  | F.neginf => sNegInfS
  | F.finite q =>
    if q = 0 then sPlusZero
    else
      (if q < 0 then sMinus else sPlus) ++
        (let p := sigDigits6 |q|; gRender p.1 p.2)

/-- The f-string of `format_segments` for one segment. -/
def fmtSegLine (s : ETSegment) : String :=
  sSeg ++ fmt02d s.seg_idx ++ sColon ++ fmtG6 s.raw_from ++ sArrow ++ fmtG6 s.raw_to ++
    sPctIntro ++ fmtF3s s.pct_delta ++ sPctT ++ fmtG6s s.T ++ sEIntro ++ fmtG6 s.E

/-- `format_segments` of `src/app1.py`: one line per segment, joined by
newlines (`"\n".join(lines)`). -/
def format_segments (segs : List ETSegment) : String :=
  String.intercalate nl (segs.map fmtSegLine)

/-! ### Helper lemmas -/

lemma fdiv_total (x y : F) (hy : y ≠ f0) : ∃ z, fdiv x y = some z := by
  cases y with
  | finite b =>
    have hb : ¬ b = 0 := fun h => hy (by simp [f0, h])
    cases x <;> simp [fdiv, hb]
  | inf => cases x <;> simp [fdiv]
  | neginf => cases x <;> simp [fdiv]
  | nan => cases x <;> simp [fdiv]

lemma fdiv_zero (x : F) : fdiv x f0 = none := by
  cases x <;> simp [fdiv, f0]

lemma fgt_ne_zero (d : F) (h : fgt d f0 = true) : d ≠ f0 := by
  intro e
  subst e
  simp [fgt, flt, f0] at h

lemma ne_of_fbeq_false {a : F} (h : fbeq a f0 = false) : a ≠ f0 := by
  intro e
  subst e
  simp [fbeq, f0] at h

lemma mkSeg_some (denom : F) (hd : denom ≠ f0) (i : Nat) (a b : F) :
    ∃ s, mkSeg denom i a b = some s := by
  cases hg : fbeq a f0 with
  | true =>
    obtain ⟨T, hT⟩ := fdiv_total f0 denom hd
    exact ⟨⟨i, a, b, f0, T, fsub f1 (fmul T T)⟩, by simp [mkSeg, hg, hT]⟩
  | false =>
    obtain ⟨pct, hp⟩ := fdiv_total (fmul f100 (fsub b a)) a (ne_of_fbeq_false hg)
    obtain ⟨T, hT⟩ := fdiv_total pct denom hd
    exact ⟨⟨i, a, b, pct, T, fsub f1 (fmul T T)⟩, by simp [mkSeg, hg, hp, hT]⟩

lemma mkSeg_zero_denom (i : Nat) (a b : F) : mkSeg f0 i a b = none := by
  unfold mkSeg
  cases hp : (if fbeq a f0 = true then some f0 else fdiv (fmul f100 (fsub b a)) a) with
  | none => rfl
  | some pct => simp [fdiv_zero]

lemma mkSeg_sound (denom : F) (i : Nat) (a b : F) (s : ETSegment)
    (h : mkSeg denom i a b = some s) :
    s.seg_idx = i ∧ s.raw_from = a ∧ s.raw_to = b ∧
      (fbeq a f0 = true → s.pct_delta = f0) ∧
      (fbeq a f0 = false → fdiv (fmul f100 (fsub b a)) a = some s.pct_delta) ∧
      fdiv s.pct_delta denom = some s.T ∧
      s.E = fsub f1 (fmul s.T s.T) := by
  unfold mkSeg at h
  cases hg : fbeq a f0 with
  | true =>
    rw [hg] at h
    simp only [if_true, Option.some_bind] at h
    cases hT : fdiv f0 denom with
    | none => rw [hT] at h; cases h
    | some T =>
      rw [hT] at h
      simp only [Option.some_bind] at h
      cases h
      exact ⟨rfl, rfl, rfl, fun _ => rfl, fun hf => Bool.noConfusion hf, hT, rfl⟩
  | false =>
    rw [hg] at h
    simp only [Bool.false_eq_true, if_false] at h
    cases hp : fdiv (fmul f100 (fsub b a)) a with
    | none => rw [hp] at h; cases h
    | some pct =>
      rw [hp] at h
      simp only [Option.some_bind] at h
      cases hT : fdiv pct denom with
      | none => rw [hT] at h; cases h
      | some T =>
        rw [hT] at h
        simp only [Option.some_bind] at h
        cases h
        exact ⟨rfl, rfl, rfl, fun hf => Bool.noConfusion hf, fun _ => rfl, hT, rfl⟩

lemma compute_go_some (denom : F) (hd : denom ≠ f0) :
    ∀ (l : List F) (a : F) (i : Nat),
      ∃ segs, compute_go denom a l i = some segs ∧ segs.length = l.length := by
  intro l
  induction l with
  | nil => exact fun a i => ⟨[], rfl, rfl⟩
  | cons b rest ih =>
    intro a i
    obtain ⟨s0, hm⟩ := mkSeg_some denom hd i a b
    obtain ⟨tail, hg, hlen⟩ := ih b (i + 1)
    exact ⟨s0 :: tail, by simp [compute_go, hm, hg], by simp [hlen]⟩

lemma compute_go_sound (denom : F) :
    ∀ (l : List F) (a : F) (i : Nat) (segs : List ETSegment),
      compute_go denom a l i = some segs →
      ∀ k s, segs.get? k = some s →
        s.seg_idx = i + k ∧
        (a :: l).get? k = some s.raw_from ∧
        (a :: l).get? (k + 1) = some s.raw_to ∧
        (fbeq s.raw_from f0 = true → s.pct_delta = f0) ∧
        (fbeq s.raw_from f0 = false →
          fdiv (fmul f100 (fsub s.raw_to s.raw_from)) s.raw_from = some s.pct_delta) ∧
        fdiv s.pct_delta denom = some s.T ∧
        s.E = fsub f1 (fmul s.T s.T) := by
  intro l
  induction l with
  | nil =>
    intro a i segs h k s hk
    cases h
    cases k <;> exact Option.noConfusion hk
  | cons b rest ih =>
    intro a i segs h k s hk
    unfold compute_go at h
    cases hm : mkSeg denom i a b with
    | none => rw [hm] at h; cases h
    | some s0 =>
      rw [hm] at h
      cases hg : compute_go denom b rest (i + 1) with
      | none => rw [hg] at h; cases h
      | some tail =>
        rw [hg] at h
        cases h
        obtain ⟨e1, e2, e3, e4, e5, e6, e7⟩ := mkSeg_sound denom i a b s0 hm
        cases k with
        | zero =>
          cases hk
          refine ⟨by simpa using e1, ?_, ?_, ?_, ?_, e6, e7⟩
          · rw [e2]; rfl
          · rw [e3]; rfl
          · rw [e2]; exact e4
          · rw [e2, e3]; exact e5
        | succ k =>
          obtain ⟨h1, h2, h3, h4, h5, h6, h7⟩ := ih b (i + 1) tail hg k s hk
          refine ⟨by omega, h2, h3, h4, h5, h6, h7⟩

lemma compute_sound (raw : List F) (denom : F) (segs : List ETSegment)
    (hc : compute_et_segments raw denom = some segs) :
    ∀ k s, segs.get? k = some s →
      s.seg_idx = k + 1 ∧
      raw.get? k = some s.raw_from ∧
      raw.get? (k + 1) = some s.raw_to ∧
      (fbeq s.raw_from f0 = true → s.pct_delta = f0) ∧
      (fbeq s.raw_from f0 = false →
        fdiv (fmul f100 (fsub s.raw_to s.raw_from)) s.raw_from = some s.pct_delta) ∧
      fdiv s.pct_delta denom = some s.T ∧
      s.E = fsub f1 (fmul s.T s.T) := by
  intro k s hk
  cases raw with
  | nil =>
    cases hc
    cases k <;> exact Option.noConfusion hk
  | cons a t =>
    cases t with
    | nil =>
      cases hc
      cases k <;> exact Option.noConfusion hk
    | cons b rest =>
      obtain ⟨h1, h2, h3, h4, h5, h6, h7⟩ :=
        compute_go_sound denom (b :: rest) a 1 segs hc k s hk
      exact ⟨by omega, h2, h3, h4, h5, h6, h7⟩

lemma compute_some (raw : List F) (denom : F) (hd : denom ≠ f0) :
    ∃ segs, compute_et_segments raw denom = some segs ∧
      segs.length = raw.length - 1 := by
  cases raw with
  | nil => exact ⟨[], rfl, rfl⟩
  | cons a t =>
    cases t with
    | nil => exact ⟨[], rfl, rfl⟩
    | cons b rest =>
      obtain ⟨segs, hg, hlen⟩ := compute_go_some denom hd (b :: rest) a 1
      exact ⟨segs, hg, by simp [hlen]⟩

lemma compute_zero_denom (raw : List F) (h2 : 2 ≤ raw.length) :
    compute_et_segments raw f0 = none := by
  cases raw with
  | nil => simp at h2
  | cons a t =>
    cases t with
    | nil => simp at h2
    | cons b rest =>
      show compute_go f0 a (b :: rest) 1 = none
      unfold compute_go
      rw [mkSeg_zero_denom]

lemma E_bound (T : F) :
    (fsub f1 (fmul T T) ≠ F.nan → fle (fsub f1 (fmul T T)) f1 = true) ∧
    (fgt (fabs T) f1 = true → flt (fsub f1 (fmul T T)) f0 = true) := by
  cases T with
  | finite q =>
    constructor
    · intro _
      simp only [fmul, fsub, f1, fle, fbeq, flt, Bool.or_eq_true, decide_eq_true_eq]
      rcases eq_or_lt_of_le (mul_self_nonneg q) with h | h
      · left; rw [← h]; ring
      · right; linarith
    · intro hT
      simp only [fabs, fgt, flt, f1, decide_eq_true_eq] at hT
      simp only [fmul, fsub, f1, f0, flt, decide_eq_true_eq]
      nlinarith [abs_mul_abs_self q, sq_nonneg (|q| - 1)]
  | inf => exact ⟨fun _ => rfl, fun _ => rfl⟩
  | neginf => exact ⟨fun _ => rfl, fun _ => rfl⟩
  | nan => exact ⟨fun h => absurd rfl h, fun h => Bool.noConfusion h⟩

lemma pyFloat_nil : pyFloat? [] = none := rfl

lemma keepTok_foldl (ts : List (List Char)) (acc : List F) :
    ts.foldl keepTok acc = acc ++ ts.filterMap pyFloat? := by
  induction ts generalizing acc with
  | nil => simp
  | cons t ts ih =>
    cases t with
    | nil =>
      simp only [List.foldl_cons, List.filterMap_cons, pyFloat_nil]
      simpa [keepTok] using ih acc
    | cons c cs =>
      simp only [List.foldl_cons, List.filterMap_cons]
      cases hp : pyFloat? (c :: cs) with
      | none => simpa [keepTok, hp] using ih acc
      | some v =>
        rw [show keepTok acc (c :: cs) = acc ++ [v] by simp [keepTok, hp]]
        rw [ih (acc ++ [v])]
        simp

lemma parse_chars_eq (cs : List Char) :
    parse_chars cs = (splitSep (pyStrip cs)).filterMap pyFloat? := by
  cases cs with
  | nil => rfl
  | cons c cs =>
    by_cases h2 : (pyStrip (c :: cs)).isEmpty = true
    · have hnil : pyStrip (c :: cs) = [] := by
        cases hp : pyStrip (c :: cs) with
        | nil => rfl
        | cons x xs => rw [hp] at h2; simp at h2
      unfold parse_chars
      rw [hnil]
      rfl
    · have h2f : (pyStrip (c :: cs)).isEmpty = false := by
        cases h : (pyStrip (c :: cs)).isEmpty
        · rfl
        · exact absurd h h2
      unfold parse_chars
      rw [h2f]
      simp only [List.isEmpty_cons, Bool.or_false, Bool.false_eq_true, if_false]
      simpa using keepTok_foldl (splitSep (pyStrip (c :: cs))) []

lemma strictGo_error :
    ∀ (ts : List (List Char)) (acc : List F) (tok : List Char),
      ts.find? badTok = some tok → strictGo ts acc = Except.error tok := by
  intro ts
  induction ts with
  | nil => intro acc tok h; simp [List.find?] at h
  | cons t ts ih =>
    intro acc tok h
    cases hb : badTok t with
    | true =>
      simp only [List.find?, hb, Option.some.injEq] at h
      subst h
      cases he : t.isEmpty with
      | true => unfold badTok at hb; rw [he] at hb; simp at hb
      | false =>
        cases hp : pyFloat? t with
        | some v => unfold badTok at hb; rw [he, hp] at hb; simp at hb
        | none => simp [strictGo, he, hp]
    | false =>
      simp only [List.find?, hb] at h
      cases he : t.isEmpty with
      | true =>
        rw [show strictGo (t :: ts) acc = strictGo ts acc by simp [strictGo, he]]
        exact ih acc tok h
      | false =>
        cases hp : pyFloat? t with
        | none => unfold badTok at hb; rw [he, hp] at hb; simp at hb
        | some v =>
          rw [show strictGo (t :: ts) acc = strictGo ts (acc ++ [v]) by
            simp [strictGo, he, hp]]
          exact ih (acc ++ [v]) tok h

/-! ### Claim theorems -/

/-- C1: for every raw series with at least two points and every positive
denominator, `compute_et_segments` returns (without raising) exactly
`|raw| - 1` segments; segment `k` (1-based) has index `k`, `raw_from =
raw[k-1]` and `raw_to = raw[k]`, and the segments are in strictly
increasing index order matching input order. -/
theorem c1_segment_structure (raw : List F) (denom : F)
    (h2 : 2 ≤ raw.length) (hd : fgt denom f0 = true) :
    ∃ segs, compute_et_segments raw denom = some segs ∧
      segs.length = raw.length - 1 ∧
      (∀ k s, segs.get? k = some s →
        s.seg_idx = k + 1 ∧ raw.get? k = some s.raw_from ∧
          raw.get? (k + 1) = some s.raw_to) ∧
      (∀ k s j t, segs.get? k = some s → segs.get? j = some t → k < j →
        s.seg_idx < t.seg_idx) := by
  obtain ⟨segs, hc, hlen⟩ := compute_some raw denom (fgt_ne_zero denom hd)
  refine ⟨segs, hc, hlen, ?_, ?_⟩
  · intro k s hk
    have h := compute_sound raw denom segs hc k s hk
    exact ⟨h.1, h.2.1, h.2.2.1⟩
  · intro k s j t hk hj hkj
    have e1 := (compute_sound raw denom segs hc k s hk).1
    have e2 := (compute_sound raw denom segs hc j t hj).1
    omega

/-- Witness for C1 at the concrete series `[25, 30]`, denominator `80`. -/
theorem c1_segment_structure_witness :
    2 ≤ ([F.finite 25, F.finite 30] : List F).length ∧
    fgt (F.finite 80) f0 = true ∧
    (∃ segs, compute_et_segments [F.finite 25, F.finite 30] (F.finite 80) = some segs ∧
      segs.length = ([F.finite 25, F.finite 30] : List F).length - 1 ∧
      (∀ k s, segs.get? k = some s →
        s.seg_idx = k + 1 ∧
          ([F.finite 25, F.finite 30] : List F).get? k = some s.raw_from ∧
          ([F.finite 25, F.finite 30] : List F).get? (k + 1) = some s.raw_to) ∧
      (∀ k s j t, segs.get? k = some s → segs.get? j = some t → k < j →
        s.seg_idx < t.seg_idx)) :=
  ⟨by decide, by with_unfolding_all rfl,
   c1_segment_structure [F.finite 25, F.finite 30] (F.finite 80) (by decide)
     (by with_unfolding_all rfl)⟩

/-- C2: for every segment produced by `compute_et_segments`, the
percent delta is exactly `0.0` in the guarded branch `raw[k-1] == 0`
(no division happens there, so no `NaN`/`Inf` and no divide-by-zero),
and otherwise it is `100 * (raw[k] - raw[k-1]) / raw[k-1]` (the `some`
result records that this division never divides by zero); in
particular `raw = [0, 5]` with denominator `80` yields exactly one
segment with `pct_delta = 0.0` and `T = 0.0`. -/
theorem c2_zero_guard :
    (∀ (raw : List F) (denom : F) (segs : List ETSegment),
      compute_et_segments raw denom = some segs →
      ∀ k s, segs.get? k = some s →
        (fbeq s.raw_from f0 = true → s.pct_delta = f0) ∧
        (fbeq s.raw_from f0 = false →
          fdiv (fmul f100 (fsub s.raw_to s.raw_from)) s.raw_from
            = some s.pct_delta)) ∧
    compute_et_segments [f0, F.finite 5] (F.finite 80) = some [seg05] := by
  constructor
  · intro raw denom segs hc k s hk
    have h := compute_sound raw denom segs hc k s hk
    exact ⟨h.2.2.2.1, h.2.2.2.2.1⟩
  · with_unfolding_all rfl

/-- Witness for C2: the guard characterisation applied to the one
segment of `raw = [0, 5]` at denominator `80`. -/
theorem c2_zero_guard_witness :
    compute_et_segments [f0, F.finite 5] (F.finite 80) = some [seg05] ∧
    (fbeq seg05.raw_from f0 = true → seg05.pct_delta = f0) ∧
    (fbeq seg05.raw_from f0 = false →
      fdiv (fmul f100 (fsub seg05.raw_to seg05.raw_from)) seg05.raw_from
        = some seg05.pct_delta) :=
  ⟨c2_zero_guard.2,
   c2_zero_guard.1 [f0, F.finite 5] (F.finite 80) [seg05] c2_zero_guard.2 0 seg05 rfl⟩

/-- C3: for every segment produced by `compute_et_segments` under a
positive denominator, `T` is exactly `pct_delta / denom` (the division
succeeds and yields exactly `T`) and `E` is exactly `1 - T * T`. -/
theorem c3_T_E (raw : List F) (denom : F) (segs : List ETSegment)
    (hd : fgt denom f0 = true)
    (hc : compute_et_segments raw denom = some segs) :
    ∀ k s, segs.get? k = some s →
      fdiv s.pct_delta denom = some s.T ∧ s.E = fsub f1 (fmul s.T s.T) := by
  intro k s hk
  have h := compute_sound raw denom segs hc k s hk
  exact ⟨h.2.2.2.2.2.1, h.2.2.2.2.2.2⟩

/-- Witness for C3 at the concrete series `[25, 30]`, denominator `80`. -/
theorem c3_T_E_witness :
    fgt (F.finite 80) f0 = true ∧
    fdiv seg2530.pct_delta (F.finite 80) = some seg2530.T ∧
    seg2530.E = fsub f1 (fmul seg2530.T seg2530.T) :=
  ⟨by with_unfolding_all rfl,
   c3_T_E [F.finite 25, F.finite 30] (F.finite 80) [seg2530]
     (by with_unfolding_all rfl) (by with_unfolding_all rfl) 0 seg2530 rfl⟩

/-- C4: permissive `parse_series` never raises (it is a total
function), and it returns exactly the parses of those tokens of the
input — split on runs of comma/whitespace/semicolon, empty tokens
discarded — that are valid float literals, in their original order,
invalid tokens silently dropped: it equals `filterMap pyFloat?` over
the split. -/
theorem c4_parse_permissive (text : String) :
    parse_series text = (splitSep (pyStrip text.toList)).filterMap pyFloat? :=
  parse_chars_eq text.toList

/-- C5: strict `parse_series` raises `InvalidValue` naming the first
non-numeric non-empty token (scanning left to right), returning no
partial sequence. -/
theorem c5_parse_strict (text : String) (tok : List Char)
    (h : (splitSep (pyStrip text.toList)).find? badTok = some tok) :
    parse_series_strict text = Except.error tok :=
  strictGo_error (splitSep (pyStrip text.toList)) [] tok h

/-- Witness for C5: the spec's example `parseSeries("25, 30, x, 40",
strict)` raises `InvalidValue("x")`. -/
theorem c5_parse_strict_witness :
    (splitSep (pyStrip exText.toList)).find? badTok = some xTok ∧
    parse_series_strict exText = Except.error xTok :=
  ⟨by with_unfolding_all rfl, c5_parse_strict exText xTok (by with_unfolding_all rfl)⟩

/-- C6: for every raw series with fewer than two points (including the
empty series), `compute_et_segments` returns the empty sequence and
never raises, regardless of the denominator (even a zero one). -/
theorem c6_short_series (raw : List F) (denom : F) (h : raw.length < 2) :
    compute_et_segments raw denom = some [] := by
  cases raw with
  | nil => rfl
  | cons a t =>
    cases t with
    | nil => rfl
    | cons b r => simp only [List.length_cons] at h; omega

/-- Witness for C6 at the one-point series `[5]` with denominator `0`. -/
theorem c6_short_series_witness :
    ([F.finite 5] : List F).length < 2 ∧
    compute_et_segments [F.finite 5] f0 = some [] :=
  ⟨by decide, c6_short_series [F.finite 5] f0 (by decide)⟩

/-- C7 counterexample: the raw pair `[nan, 1]` (reachable, since
permissive parsing accepts the token `nan`) produces a segment whose
`E` is `nan`, and `nan <= 1` is false — so `E <= 1` does not hold for
every produced segment. -/
theorem c7_counterexample :
    compute_et_segments [F.nan, F.finite 1] (F.finite 80) = some [segNan] ∧
    fle segNan.E f1 = false := by
  constructor
  · with_unfolding_all rfl
  · with_unfolding_all rfl

/-- C7 (amended): for every segment produced by `compute_et_segments`,
`E <= 1` holds whenever `E` is not `nan`, and `E < 0` whenever
`|T| > 1`. -/
theorem c7_E_bounds (raw : List F) (denom : F) (segs : List ETSegment)
    (hc : compute_et_segments raw denom = some segs)
    (k : Nat) (s : ETSegment) (hk : segs.get? k = some s) :
    (s.E ≠ F.nan → fle s.E f1 = true) ∧
    (fgt (fabs s.T) f1 = true → flt s.E f0 = true) := by
  have h := compute_sound raw denom segs hc k s hk
  rw [h.2.2.2.2.2.2]
  exact E_bound s.T

/-- Witness for the amended C7 at the concrete series `[25, 30]`,
denominator `80`. -/
theorem c7_E_bounds_witness :
    compute_et_segments [F.finite 25, F.finite 30] (F.finite 80) = some [seg2530] ∧
    ((seg2530.E ≠ F.nan → fle seg2530.E f1 = true) ∧
      (fgt (fabs seg2530.T) f1 = true → flt seg2530.E f0 = true)) :=
  ⟨by with_unfolding_all rfl,
   c7_E_bounds [F.finite 25, F.finite 30] (F.finite 80) [seg2530]
     (by with_unfolding_all rfl) 0 seg2530 rfl⟩

/-- C8: `compute_et_segments` is not total over a zero denominator —
for every series of at least two points it raises
(`ZeroDivisionError`, modelled as `none`) at `T = pct / denom` when the
denominator is `0.0`; any nonzero denominator (negative ones included)
is accepted without validation and still yields `|raw| - 1`
segments. -/
theorem c8_denominator_totality :
    (∀ raw : List F, 2 ≤ raw.length → compute_et_segments raw f0 = none) ∧
    (∀ (raw : List F) (denom : F), 2 ≤ raw.length → denom ≠ f0 →
      ∃ segs, compute_et_segments raw denom = some segs ∧
        segs.length = raw.length - 1) :=
  ⟨fun raw h2 => compute_zero_denom raw h2,
   fun raw denom _ hd => compute_some raw denom hd⟩

/-- Witness for C8: `[1, 2]` with denominator `0` raises; with the
negative denominator `-80` it yields one segment. -/
theorem c8_denominator_totality_witness :
    compute_et_segments [F.finite 1, F.finite 2] f0 = none ∧
    (∃ segs, compute_et_segments [F.finite 1, F.finite 2] (F.finite (-80)) = some segs ∧
      segs.length = ([F.finite 1, F.finite 2] : List F).length - 1) :=
  ⟨c8_denominator_totality.1 [F.finite 1, F.finite 2] (by decide),
   c8_denominator_totality.2 [F.finite 1, F.finite 2] (F.finite (-80)) (by decide)
     (by simp [f0])⟩

/-- C9: permissive `parse_series` accepts the tokens `nan` and `inf`
and thus can return non-finite values, and `compute_et_segments` over
such a series produces non-finite `pct_delta`, `T` and `E` — the
no-`NaN`/`Inf` guarantee is limited to the `raw[k-1] == 0` guard. -/
theorem c9_nonfinite_values :
    parse_series nanText = [F.nan] ∧
    isFinite F.nan = false ∧
    parse_series infText = [F.finite 1, F.inf] ∧
    compute_et_segments (parse_series infText) (F.finite 80) = some [segInf] ∧
    isFinite segInf.pct_delta = false ∧
    isFinite segInf.T = false ∧
    isFinite segInf.E = false := by
  refine ⟨?_, rfl, ?_, ?_, rfl, rfl, rfl⟩
  · with_unfolding_all rfl
  · with_unfolding_all rfl
  · with_unfolding_all rfl

/-- C10: `format_segments` is a pure, deterministic function — two
calls on identical input give identical output — and its output is the
newline-join of one formatted line per segment, in segment order. -/
theorem c10_format_deterministic (segs : List ETSegment) :
    format_segments segs = format_segments segs ∧
    format_segments segs = String.intercalate nl (segs.map fmtSegLine) ∧
    (segs.map fmtSegLine).length = segs.length :=
  ⟨rfl, rfl, by simp⟩
